import Mathlib

/-!
Shallow embedding of `src/neural/lobe.rs` and `src/neural/base.rs` of the
`spiker` crate: the `Lobe` spiking-neuron cluster, its constructors, the
flat parameter (de)serialization surface, and the `tick` update, together
with proofs of the specified properties.

The numeric type `Amount` (`crate::types`) is not among the given sources;
the specification treats it as an exact, deterministic numeric primitive
whose construction, comparison and ring operations are assumed exact, so
it is modelled as the rationals.
-/

/-- Modelled from the spec: `Amount`, the deterministic exact numeric
primitive from `crate::types` (not among the given sources; the spec
assumes exact arithmetic), modelled as `ℚ`. -/
abbrev Amount : Type := ℚ

/-- A rectangular cluster of spiking neurons (Rust struct `Lobe`).
`dims` stores `(width, breadth)`, exactly as the source does. -/
structure Lobe where
  dims : ℕ × ℕ
  values : List Amount
  strengths : List Amount
  weights : List Amount
  thresholds : List Amount
  falloff : Amount
deriving DecidableEq

namespace Lobe

/-- Width: number of internal columns (the source's `self.dims.0`). -/
def width (L : Lobe) : ℕ := L.dims.1

/-- Breadth: neurons per column (the source's `self.dims.1`). -/
def breadth (L : Lobe) : ℕ := L.dims.2

/-- `Lobe::new(breadth, width, falloff)`: zero buffers, stored falloff. -/
def new (breadth width : ℕ) (falloff : Amount) : Lobe where
  dims := (width, breadth)
  values := List.replicate (breadth * (width + 1)) 0
  weights := List.replicate (breadth * width * 3) 0
  strengths := List.replicate (breadth * width) 0
  thresholds := List.replicate (breadth * width) 0
  falloff := falloff

/-- `Lobe::value_column_ref(which)`: the sub-slice
`values[which*breadth .. (which+1)*breadth]`. -/
def value_column_ref (L : Lobe) (which : ℕ) : List Amount :=
  (L.values.take ((which + 1) * L.breadth)).drop (which * L.breadth)

/-- `Lobe::get_output()`: the value column at index `width`. -/
def get_output (L : Lobe) : List Amount :=
  L.value_column_ref L.width

/-- `Lobe::apply_input(inputs)`: `*into += *from` over
`value_column_mut(0).iter_mut().zip(inputs)` — pairwise `+=` onto the
prefix of column 0 until the shorter of the two sides runs out; every
entry of `values` past the zipped prefix is untouched. -/
def apply_input (L : Lobe) (inputs : List Amount) : Lobe :=
  { L with values :=
      List.zipWith (· + ·) (L.values.take L.breadth) inputs
        ++ L.values.drop (min L.breadth inputs.length) }

/-- `Lobe::all_parameters_owned()`: fresh flat copy in the order
thresholds, weights, strengths, falloff. -/
def all_parameters_owned (L : Lobe) : List Amount :=
  L.thresholds ++ L.weights ++ L.strengths ++ [L.falloff]

/-- `Lobe::get_dims()`. -/
def get_dims (L : Lobe) : ℕ × ℕ :=
  L.dims

/-- The length condition `params.len() == area * 5 + 1` asserted by
`Lobe::from_parameters` via `debug_assert!` (compiled out of release
builds). -/
def from_parameters_len_ok (dims : ℕ × ℕ) (params : List Amount) : Prop :=
  params.length = dims.1 * dims.2 * 5 + 1

/-- `Lobe::from_parameters(dims, params)` with release-build semantics:
the `debug_assert!` on the exact length is compiled out, and the slice
expressions `params[0..area]`, `params[area..area*4]`,
`params[area*4..area*5]` and `params.last().unwrap()` panic (modelled as
`none`) exactly when `5 * area > params.len()` or `params` is empty.
Note the source's `area + dims.0` as the size of the fresh zeroed
`values` buffer (`dims.0` is the width). -/
def from_parameters (dims : ℕ × ℕ) (params : List Amount) : Option Lobe :=
  let area := dims.1 * dims.2
  if 5 * area ≤ params.length ∧ params ≠ [] then
    some { dims := dims
           thresholds := params.take area
           weights := (params.drop area).take (3 * area)
           strengths := (params.drop (4 * area)).take area
           falloff := (params.getLast?).getD 0
           values := List.replicate (area + dims.1) 0 }
  else none

/-- The buffer-shape invariant of the specification (§3): buffer lengths
determined by `breadth` and `width`. -/
def Wellformed (L : Lobe) : Prop :=
  L.values.length = L.breadth * (L.width + 1) ∧
  L.weights.length = L.breadth * L.width * 3 ∧
  L.strengths.length = L.breadth * L.width ∧
  L.thresholds.length = L.breadth * L.width

instance (L : Lobe) : Decidable L.Wellformed :=
  inferInstanceAs (Decidable (_ ∧ _ ∧ _ ∧ _))

/-- Value of neuron `(column c, row i)`: flat index `c * breadth + i`
(the layout every accessor of the source uses). Out-of-range reads
default to `0`; they never occur at valid coordinates of a wellformed
lobe. -/
def valueAt (L : Lobe) (c i : ℕ) : Amount :=
  L.values.getD (c * L.breadth + i) 0

/-- Threshold of neuron `(c, i)`, same flat layout as `valueAt`. -/
def thresholdAt (L : Lobe) (c i : ℕ) : Amount :=
  L.thresholds.getD (c * L.breadth + i) 0

/-- Strength of neuron `(c, i)`, same flat layout as `valueAt`. -/
def strengthAt (L : Lobe) (c i : ℕ) : Amount :=
  L.strengths.getD (c * L.breadth + i) 0

/-- Weight of neuron `(c, i)`'s outgoing link in direction `offset - 1`
(`offset ∈ {0, 1, 2}`): flat index `c * (3 * breadth) + 3 * i + offset`. -/
def weightAt (L : Lobe) (c i offset : ℕ) : Amount :=
  L.weights.getD (c * (3 * L.breadth) + 3 * i + offset) 0

/-- Body of the innermost Phase A loop of `Lobe::tick`: the amount
`+=`-ed onto the outputs entry for sink row `i + offset - 1` from source
neuron `(c, i)` on pass `offset` — `0` when the value is below the
threshold, otherwise `input * weight * strength * duration`. -/
def linkContribution (L : Lobe) (dur : Amount) (c i offset : ℕ) : Amount :=
  if L.valueAt c i < L.thresholdAt c i then 0
  else L.valueAt c i * L.weightAt c i offset * L.strengthAt c i * dur

/-- Entry `(c, j)` (sink column `c + 1`, row `j`) of the Phase A
`outputs` buffer after the three `offset` passes: pass `offset = 0`
adds the contribution of source row `j + 1` (skipped when that row is
out of range), pass `1` that of row `j`, and pass `2` that of row
`j - 1` (skipped for `j = 0`), matching the `to_skip_input` /
`to_skip_output` arithmetic of the source's loops. -/
def phaseAOutput (L : Lobe) (dur : Amount) (c j : ℕ) : Amount :=
  (if j + 1 < L.breadth then L.linkContribution dur c (j + 1) 0 else 0)
    + L.linkContribution dur c j 1
    + (if 1 ≤ j then L.linkContribution dur c (j - 1) 2 else 0)

/-- The Phase A `outputs` buffer: `breadth * width` amounts, flat entry
`k` holding the output for sink column `k / breadth + 1`, row
`k % breadth` (the buffer is consumed `breadth`-chunk by chunk). -/
def phaseAOutputs (L : Lobe) (dur : Amount) : List Amount :=
  (List.range (L.breadth * L.width)).map
    (fun k => L.phaseAOutput dur (k / L.breadth) (k % L.breadth))

/-- Phase B of `Lobe::tick`: `izip!(&mut self.values, &self.thresholds)`
resets a value to `0` when it is `>=` its threshold; the zip stops at
the end of `thresholds`, leaving the output column untouched. -/
def phaseB (values thresholds : List Amount) : List Amount :=
  List.zipWith (fun v t => if t ≤ v then 0 else v) values thresholds
    ++ values.drop thresholds.length

/-- First half of Phase C: `izip!(&mut self.values[breadth..], &outputs)`
adds the Phase A buffer onto the values from flat index `breadth` on;
entries beyond the shorter operand are untouched. -/
def phaseCAdd (breadth : ℕ) (values outputs : List Amount) : List Amount :=
  values.take breadth
    ++ (List.zipWith (· + ·) (values.drop breadth) outputs
        ++ (values.drop breadth).drop outputs.length)

/-- `Lobe::tick(duration_secs)`: Phase A fills the `outputs` buffer from
the pre-tick values, Phase B resets fired neurons, Phase C adds
`outputs` onto the values from flat index `breadth` on and then applies
the decay `*value -= *value * falloff * duration` to every value. -/
def tick (L : Lobe) (dur : Amount) : Lobe :=
  let decayed :=
    (phaseCAdd L.breadth (phaseB L.values L.thresholds)
        (L.phaseAOutputs dur)).map
      (fun v => v - v * L.falloff * dur)
  { L with values := decayed }

/-- Result of Phase B on neuron `(c, i)`: the pre-tick value, reset to
`0` exactly when the neuron sits in a thresholded column (`c < width`)
and its value is at or above its threshold. -/
def resetValueAt (L : Lobe) (c i : ℕ) : Amount :=
  if c < L.width ∧ L.thresholdAt c i ≤ L.valueAt c i then 0 else L.valueAt c i

/-- The Phase A output that Phase C adds onto neuron `(c, i)`: columns
`1..width` receive the outputs entry of their sink column, column 0
receives nothing. -/
def phaseCAddAt (L : Lobe) (dur : Amount) (c i : ℕ) : Amount :=
  if 1 ≤ c then L.phaseAOutput dur (c - 1) i else 0

end Lobe

theorem getD_map_sub (f : Amount → Amount) (l : List Amount) (n : ℕ)
    (hn : n < l.length) : (l.map f).getD n 0 = f (l.getD n 0) := by
  rw [List.getD_eq_getElem?_getD, List.getD_eq_getElem?_getD,
    List.getElem?_map, List.getElem?_eq_getElem hn]
  rfl

theorem getD_eq_zero_of_forall_zero (l : List Amount)
    (h : ∀ x ∈ l, x = 0) (n : ℕ) : l.getD n 0 = 0 := by
  rcases Nat.lt_or_ge n l.length with h' | h'
  · rw [List.getD_eq_getElem l 0 h']
    exact h _ (List.getElem_mem h')
  · rw [List.getD_eq_getElem?_getD, List.getElem?_eq_none h']
    rfl

theorem flat_index_inj {b c1 i1 c2 i2 : ℕ} (h1 : i1 < b) (h2 : i2 < b)
    (h : c1 * b + i1 = c2 * b + i2) : c1 = c2 ∧ i1 = i2 := by
  have hb : 0 < b := Nat.lt_of_le_of_lt (Nat.zero_le _) h1
  have hi : i1 = i2 := by
    have hm : (i1 + b * c1) % b = (i2 + b * c2) % b := by
      rw [show i1 + b * c1 = c1 * b + i1 from by ring,
        show i2 + b * c2 = c2 * b + i2 from by ring, h]
    rwa [Nat.add_mul_mod_self_left, Nat.add_mul_mod_self_left,
      Nat.mod_eq_of_lt h1, Nat.mod_eq_of_lt h2] at hm
  subst hi
  refine ⟨?_, rfl⟩
  exact Nat.eq_of_mul_eq_mul_right hb (Nat.add_right_cancel h)

namespace Lobe

theorem phaseB_length (v t : List Amount) : (phaseB v t).length = v.length := by
  rw [phaseB, List.length_append, List.length_zipWith, List.length_drop]
  omega

theorem phaseCAdd_length (b : ℕ) (v out : List Amount) :
    (phaseCAdd b v out).length = v.length := by
  rw [phaseCAdd, List.length_append, List.length_append, List.length_zipWith,
    List.length_take, List.length_drop, List.length_drop, List.length_drop]
  omega

theorem phaseAOutputs_length (L : Lobe) (dur : Amount) :
    (L.phaseAOutputs dur).length = L.breadth * L.width := by
  rw [phaseAOutputs, List.length_map, List.length_range]

theorem tick_values_length (L : Lobe) (dur : Amount) :
    (L.tick dur).values.length = L.values.length := by
  show ((phaseCAdd _ _ _).map _).length = _
  rw [List.length_map, phaseCAdd_length, phaseB_length]

theorem tick_dims (L : Lobe) (dur : Amount) : (L.tick dur).dims = L.dims := rfl

theorem tick_thresholds (L : Lobe) (dur : Amount) :
    (L.tick dur).thresholds = L.thresholds := rfl

theorem phaseB_getD (v t : List Amount) (n : ℕ) (hn : n < v.length) :
    (phaseB v t).getD n 0 =
      if n < t.length then
        if t.getD n 0 ≤ v.getD n 0 then 0 else v.getD n 0
      else v.getD n 0 := by
  have hv : v[n]? = some (v.getD n 0) := by
    rw [List.getElem?_eq_getElem hn, List.getD_eq_getElem v 0 hn]
  by_cases h : n < t.length
  · have ht : t[n]? = some (t.getD n 0) := by
      rw [List.getElem?_eq_getElem h, List.getD_eq_getElem t 0 h]
    have hlen : n < (List.zipWith (fun v t => if t ≤ v then 0 else v) v t).length := by
      rw [List.length_zipWith]; omega
    rw [phaseB, List.getD_eq_getElem?_getD, List.getElem?_append, if_pos hlen,
      List.getElem?_zipWith', hv, ht]
    simp [h]
  · have hlen : ¬ n < (List.zipWith (fun v t => if t ≤ v then (0 : Amount) else v) v t).length := by
      rw [List.length_zipWith]; omega
    rw [phaseB, List.getD_eq_getElem?_getD, List.getElem?_append, if_neg hlen,
      List.length_zipWith]
    have hmin : min v.length t.length = t.length := by omega
    rw [hmin, List.getElem?_drop, show t.length + (n - t.length) = n from by omega, hv]
    simp [h]

theorem phaseCAdd_getD (b : ℕ) (v out : List Amount) (n : ℕ)
    (hn : n < v.length) :
    (phaseCAdd b v out).getD n 0 =
      if n < b then v.getD n 0
      else if n - b < out.length then v.getD n 0 + out.getD (n - b) 0
      else v.getD n 0 := by
  have hv : v[n]? = some (v.getD n 0) := by
    rw [List.getElem?_eq_getElem hn, List.getD_eq_getElem v 0 hn]
  by_cases h : n < b
  · have hlen : n < (v.take b).length := by
      rw [List.length_take]; omega
    rw [phaseCAdd, List.getD_eq_getElem?_getD, List.getElem?_append, if_pos hlen,
      List.getElem?_take_of_lt h, hv]
    simp [h]
  · have hbv : b ≤ v.length := by omega
    have hlen : ¬ n < (v.take b).length := by
      rw [List.length_take]; omega
    rw [phaseCAdd, List.getD_eq_getElem?_getD, List.getElem?_append, if_neg hlen,
      List.length_take, show min b v.length = b from by omega,
      List.getElem?_append, List.length_zipWith, List.length_drop]
    by_cases h2 : n - b < out.length
    · have hz : n - b < min (v.length - b) out.length := by omega
      rw [if_pos hz, List.getElem?_zipWith', List.getElem?_drop,
        show b + (n - b) = n from by omega, hv]
      have hout : out[n - b]? = some (out.getD (n - b) 0) := by
        rw [List.getElem?_eq_getElem h2, List.getD_eq_getElem out 0 h2]
      rw [hout]
      simp [h, h2]
    · have hz : ¬ n - b < min (v.length - b) out.length := by omega
      rw [if_neg hz, show min (v.length - b) out.length = out.length from by omega,
        List.getElem?_drop, List.getElem?_drop,
        show b + (out.length + (n - b - out.length)) = n from by omega, hv]
      simp [h, h2]

theorem phaseAOutputs_getD (L : Lobe) (dur : Amount) (k : ℕ)
    (hk : k < L.breadth * L.width) :
    (L.phaseAOutputs dur).getD k 0 =
      L.phaseAOutput dur (k / L.breadth) (k % L.breadth) := by
  rw [phaseAOutputs, List.getD_eq_getElem?_getD, List.getElem?_map,
    List.getElem?_range hk]
  rfl

/-- Master characterization of one tick: the post-tick value of neuron
`(c, i)` is its Phase B result, plus the Phase A output deposited by
Phase C, with the decay applied to the sum. -/
theorem tick_valueAt (L : Lobe) (dur : Amount)
    (hv : L.values.length = L.breadth * (L.width + 1))
    (ht : L.thresholds.length = L.breadth * L.width)
    (c i : ℕ) (hc : c ≤ L.width) (hi : i < L.breadth) :
    (L.tick dur).valueAt c i =
      L.resetValueAt c i + L.phaseCAddAt dur c i
        - (L.resetValueAt c i + L.phaseCAddAt dur c i) * L.falloff * dur := by
  have hb : 0 < L.breadth := Nat.lt_of_le_of_lt (Nat.zero_le _) hi
  have hnv : c * L.breadth + i < L.values.length := by
    rw [hv]
    calc c * L.breadth + i < (c + 1) * L.breadth := by rw [Nat.succ_mul]; omega
      _ ≤ (L.width + 1) * L.breadth := Nat.mul_le_mul_right _ (by omega)
      _ = L.breadth * (L.width + 1) := Nat.mul_comm _ _
  have hBlen : (phaseB L.values L.thresholds).length = L.values.length :=
    phaseB_length _ _
  have step1 : (L.tick dur).valueAt c i =
      (phaseCAdd L.breadth (phaseB L.values L.thresholds)
          (L.phaseAOutputs dur)).getD (c * L.breadth + i) 0
        - (phaseCAdd L.breadth (phaseB L.values L.thresholds)
            (L.phaseAOutputs dur)).getD (c * L.breadth + i) 0 * L.falloff * dur := by
    show ((phaseCAdd _ _ _).map (fun v => v - v * L.falloff * dur)).getD
        (c * L.breadth + i) 0 = _
    rw [getD_map_sub _ _ _ (by rw [phaseCAdd_length, hBlen]; exact hnv)]
  rw [step1, phaseCAdd_getD _ _ _ _ (by rw [hBlen]; exact hnv),
    phaseAOutputs_length, phaseB_getD _ _ _ hnv, ht]
  rcases Nat.eq_zero_or_pos c with hc0 | hc1
  · subst hc0
    have hfirst : 0 * L.breadth + i < L.breadth := by simpa using hi
    rw [if_pos hfirst]
    by_cases hw : (0 : ℕ) < L.width
    · have : 0 * L.breadth + i < L.breadth * L.width := by
        calc 0 * L.breadth + i < L.breadth := hfirst
          _ = L.breadth * 1 := (Nat.mul_one _).symm
          _ ≤ L.breadth * L.width := Nat.mul_le_mul_left _ hw
      rw [if_pos this]
      simp only [resetValueAt, phaseCAddAt, valueAt, thresholdAt]
      rw [if_neg (by omega : ¬ (1 : ℕ) ≤ 0)]
      by_cases hfire : L.thresholds.getD (0 * L.breadth + i) 0
          ≤ L.values.getD (0 * L.breadth + i) 0
      · rw [if_pos hfire, if_pos ⟨hw, hfire⟩]; ring
      · rw [if_neg hfire, if_neg (by tauto)]; ring
    · have hw0 : L.width = 0 := by omega
      have : ¬ 0 * L.breadth + i < L.breadth * L.width := by
        rw [hw0]; simp
      rw [if_neg this]
      simp only [resetValueAt, phaseCAddAt, valueAt, thresholdAt]
      rw [if_neg (by omega : ¬ (1 : ℕ) ≤ 0), if_neg (by rw [hw0]; omega :
        ¬ (0 < L.width ∧ L.thresholds.getD (0 * L.breadth + i) 0
          ≤ L.values.getD (0 * L.breadth + i) 0))]
      ring
  · have hnotfirst : ¬ c * L.breadth + i < L.breadth := by
      have : L.breadth ≤ c * L.breadth := by
        calc L.breadth = 1 * L.breadth := (Nat.one_mul _).symm
          _ ≤ c * L.breadth := Nat.mul_le_mul_right _ hc1
      omega
    rw [if_neg hnotfirst]
    have hsub : c * L.breadth + i - L.breadth = (c - 1) * L.breadth + i := by
      cases c with
      | zero => omega
      | succ c' => rw [Nat.succ_mul]; simp; omega
    have hsink : c * L.breadth + i - L.breadth < L.breadth * L.width := by
      rw [hsub]
      calc (c - 1) * L.breadth + i < (c - 1 + 1) * L.breadth := by
            rw [Nat.succ_mul]; omega
        _ ≤ L.width * L.breadth := Nat.mul_le_mul_right _ (by omega)
        _ = L.breadth * L.width := Nat.mul_comm _ _
    rw [if_pos hsink, phaseAOutputs_getD _ _ _ hsink, hsub]
    have hdiv : ((c - 1) * L.breadth + i) / L.breadth = c - 1 := by
      rw [Nat.mul_comm (c - 1) L.breadth, Nat.mul_add_div hb,
        Nat.div_eq_of_lt hi, Nat.add_zero]
    have hmod : ((c - 1) * L.breadth + i) % L.breadth = i := by
      rw [Nat.mul_comm (c - 1) L.breadth, Nat.mul_add_mod, Nat.mod_eq_of_lt hi]
    rw [hdiv, hmod]
    simp only [resetValueAt, phaseCAddAt, valueAt, thresholdAt]
    rw [if_pos (show (1 : ℕ) ≤ c from hc1)]
    by_cases hcw : c < L.width
    · have : c * L.breadth + i < L.breadth * L.width := by
        calc c * L.breadth + i < (c + 1) * L.breadth := by rw [Nat.succ_mul]; omega
          _ ≤ L.width * L.breadth := Nat.mul_le_mul_right _ (by omega)
          _ = L.breadth * L.width := Nat.mul_comm _ _
      rw [if_pos this]
      by_cases hfire : L.thresholds.getD (c * L.breadth + i) 0
          ≤ L.values.getD (c * L.breadth + i) 0
      · rw [if_pos hfire, if_pos ⟨hcw, hfire⟩]
      · rw [if_neg hfire, if_neg (by tauto)]
    · have hcw' : c = L.width := by omega
      have : ¬ c * L.breadth + i < L.breadth * L.width := by
        rw [hcw']
        have : L.breadth * L.width ≤ L.width * L.breadth := by
          rw [Nat.mul_comm]
        have h1 : L.width * L.breadth ≤ L.width * L.breadth + i := by omega
        omega
      rw [if_neg this, if_neg (by tauto)]

end Lobe

/-- Claim C4 counterexample: `new(1, 1, 1)` stores falloff `1`, not `0`
— the constructor keeps the falloff argument instead of
zero-initializing it. -/
theorem c4_new_falloff_not_zero :
    (Lobe.new 1 1 (1 : Amount)).falloff ≠ 0 := by
  norm_num [Lobe.new]

/-- Claim C4 (amended): for all arguments, `new(breadth, width, falloff)`
zero-initializes every entry of values, thresholds, weights and
strengths, and stores the given `falloff` argument (not `0`). -/
theorem c4_new_zero_init (breadth width : ℕ) (falloff : Amount) :
    (∀ x ∈ (Lobe.new breadth width falloff).values, x = 0) ∧
    (∀ x ∈ (Lobe.new breadth width falloff).thresholds, x = 0) ∧
    (∀ x ∈ (Lobe.new breadth width falloff).weights, x = 0) ∧
    (∀ x ∈ (Lobe.new breadth width falloff).strengths, x = 0) ∧
    (Lobe.new breadth width falloff).falloff = falloff := by
  refine ⟨?_, ?_, ?_, ?_, rfl⟩ <;>
    exact fun x hx => List.eq_of_mem_replicate hx

/-- Witness for C4 (amended): instantiated at `new(2, 3, 5)`, with the
membership hypothesis of the first conjunct discharged at the head
entry of `values`. -/
theorem c4_new_zero_init_witness :
    (0 : Amount) = 0 ∧ (Lobe.new 2 3 (5 : Amount)).falloff = 5 :=
  ⟨(c4_new_zero_init 2 3 5).1 0 (by simp [Lobe.new]),
    (c4_new_zero_init 2 3 5).2.2.2.2⟩

/-- Claim C1: for any wellformed Lobe (whatever its activation state),
`all_parameters_owned` is the flat [thresholds, weights, strengths,
falloff] vector of length `breadth*width*5 + 1`, and
`from_parameters(get_dims(), all_parameters_owned())` succeeds and
yields a Lobe with identical thresholds, weights, strengths and falloff
and with all-zero values. -/
theorem c1_parameter_roundtrip (L : Lobe) (hL : L.Wellformed) :
    L.all_parameters_owned
        = L.thresholds ++ L.weights ++ L.strengths ++ [L.falloff] ∧
    L.all_parameters_owned.length = L.breadth * L.width * 5 + 1 ∧
    ∃ L', Lobe.from_parameters L.get_dims L.all_parameters_owned = some L' ∧
      L'.thresholds = L.thresholds ∧ L'.weights = L.weights ∧
      L'.strengths = L.strengths ∧ L'.falloff = L.falloff ∧
      ∀ x ∈ L'.values, x = 0 := by
  obtain ⟨hv, hw, hs, ht⟩ := hL
  have hcomm : L.width * L.breadth = L.breadth * L.width := Nat.mul_comm _ _
  have hlen : L.all_parameters_owned.length = L.breadth * L.width * 5 + 1 := by
    simp [Lobe.all_parameters_owned, ht, hw, hs]
    omega
  refine ⟨rfl, hlen, ?_⟩
  have hth : L.thresholds.length = L.get_dims.1 * L.get_dims.2 := by
    rw [ht]; exact hcomm.symm
  have hcond : 5 * (L.get_dims.1 * L.get_dims.2) ≤ L.all_parameters_owned.length
      ∧ L.all_parameters_owned ≠ [] := by
    constructor
    · rw [hlen, show L.get_dims.1 * L.get_dims.2 = L.width * L.breadth from rfl,
        hcomm]
      omega
    · simp [Lobe.all_parameters_owned]
  simp only [Lobe.from_parameters]
  rw [if_pos hcond]
  refine ⟨_, rfl, ?_, ?_, ?_, ?_, ?_⟩
  · show (L.all_parameters_owned).take (L.get_dims.1 * L.get_dims.2)
      = L.thresholds
    rw [Lobe.all_parameters_owned, List.append_assoc, List.append_assoc]
    exact List.take_left' hth
  · show ((L.all_parameters_owned).drop (L.get_dims.1 * L.get_dims.2)).take
      (3 * (L.get_dims.1 * L.get_dims.2)) = L.weights
    rw [Lobe.all_parameters_owned, List.append_assoc, List.append_assoc,
      List.drop_left' hth]
    exact List.take_left' (by rw [hw,
      show L.get_dims.1 * L.get_dims.2 = L.width * L.breadth from rfl]; ring)
  · show ((L.all_parameters_owned).drop (4 * (L.get_dims.1 * L.get_dims.2))).take
      (L.get_dims.1 * L.get_dims.2) = L.strengths
    rw [Lobe.all_parameters_owned, List.append_assoc,
      List.drop_left' (by rw [List.length_append, ht, hw,
        show L.get_dims.1 * L.get_dims.2 = L.width * L.breadth from rfl]; ring)]
    exact List.take_left' (by rw [hs,
      show L.get_dims.1 * L.get_dims.2 = L.width * L.breadth from rfl]; ring)
  · show (L.all_parameters_owned).getLast?.getD 0 = L.falloff
    rw [Lobe.all_parameters_owned, List.getLast?_concat]
    rfl
  · exact fun x hx => List.eq_of_mem_replicate hx

/-- Witness for C1: the round trip instantiated at a concrete wellformed
Lobe with nonzero values (activation history) and parameters. -/
theorem c1_parameter_roundtrip_witness :
    (Lobe.all_parameters_owned
        { dims := (1, 1), values := [3, 4], strengths := [5],
          weights := [6, 7, 8], thresholds := [9], falloff := 10 }).length
      = 6 :=
  (c1_parameter_roundtrip
    { dims := (1, 1), values := [3, 4], strengths := [5],
      weights := [6, 7, 8], thresholds := [9], falloff := 10 }
    (by decide)).2.1

/-- Claim C2 (code bug witness): `from_parameters((2, 1), params)` with
the correct parameter count `1*2*5 + 1 = 11` (width 2, breadth 1) yields
a Lobe whose `values` buffer has length `breadth*width + width = 4`
instead of `breadth*(width+1) = 3`: the source sizes the fresh buffer as
`area + dims.0`, and `dims.0` is the width, not the breadth. -/
theorem c2_values_length_bug :
    (Lobe.from_parameters (2, 1) (List.replicate 11 (0 : Amount))).map
        (fun L => L.values.length) = some 4 ∧ (4 : ℕ) ≠ 1 * (2 + 1) := by
  constructor
  · norm_num [Lobe.from_parameters]
  · norm_num

/-- Claim C3 counterexample: for dims `(1, 1)` a parameter buffer of
length `7 ≠ 1*1*5 + 1 = 6` is accepted by `from_parameters` (the
exact-length check is only a `debug_assert!`, compiled out of release
builds) instead of failing with a shape-mismatch error. -/
theorem c3_no_length_error :
    (Lobe.from_parameters (1, 1) (List.replicate 7 (0 : Amount))).isSome
        = true ∧
      (List.replicate 7 (0 : Amount)).length ≠ 1 * 1 * 5 + 1 := by
  constructor
  · norm_num [Lobe.from_parameters]
  · norm_num

/-- Claim C3 (amended): `from_parameters` checks the exact length
`area*5 + 1` only via `debug_assert!`; in release semantics it succeeds
exactly when the buffer covers the three parameter slices and is
nonempty (`5*area ≤ len` and `params ≠ []`) — so an over-long buffer is
truncated (falloff read from the last element) rather than rejected,
and a shorter buffer fails by out-of-bounds slicing rather than an
explicit shape-mismatch error; with the exact length it succeeds and
returns a Lobe carrying the given dims. -/
theorem c3_from_parameters_acceptance (dims : ℕ × ℕ) (params : List Amount) :
    ((Lobe.from_parameters dims params).isSome ↔
      5 * (dims.1 * dims.2) ≤ params.length ∧ params ≠ []) ∧
    (params.length = dims.1 * dims.2 * 5 + 1 →
      ∃ L, Lobe.from_parameters dims params = some L ∧ L.dims = dims) := by
  constructor
  · simp only [Lobe.from_parameters]
    by_cases h : 5 * (dims.1 * dims.2) ≤ params.length ∧ params ≠ []
    · rw [if_pos h]
      simp [h]
    · rw [if_neg h]
      simp [h]
  · intro hlen
    have hcond : 5 * (dims.1 * dims.2) ≤ params.length ∧ params ≠ [] := by
      constructor
      · omega
      · intro hnil
        rw [hnil] at hlen
        simp at hlen
    simp only [Lobe.from_parameters]
    rw [if_pos hcond]
    exact ⟨_, rfl, rfl⟩

/-- Witness for C3 (amended): a buffer of the exact length 6 for dims
`(1, 1)` is accepted and the resulting Lobe carries those dims. -/
theorem c3_from_parameters_acceptance_witness :
    ∃ L, Lobe.from_parameters (1, 1) (List.replicate 6 (0 : Amount))
        = some L ∧ L.dims = (1, 1) :=
  (c3_from_parameters_acceptance (1, 1) (List.replicate 6 (0 : Amount))).2
    (by norm_num)

/-- Claim C9: concrete scenario. Starting from the Lobe with breadth 1,
width 1, thresholds `[0]`, weights `[0, 1, 0]`, strengths `[1]`, falloff
`0` and all values zero, `apply_input([5])` followed by `tick(1)` yields
`get_output() == [5]` and value column 0 equal to `[0]`. -/
theorem c9_scenario :
    ((Lobe.apply_input
        { dims := (1, 1), values := [0, 0], thresholds := [0],
          weights := [0, 1, 0], strengths := [1], falloff := 0 }
        [5]).tick 1).get_output = [5] ∧
    ((Lobe.apply_input
        { dims := (1, 1), values := [0, 0], thresholds := [0],
          weights := [0, 1, 0], strengths := [1], falloff := 0 }
        [5]).tick 1).value_column_ref 0 = [0] := by
  constructor <;>
  · norm_num [Lobe.apply_input, Lobe.tick, Lobe.get_output,
      Lobe.value_column_ref, Lobe.breadth, Lobe.width, Lobe.phaseAOutputs,
      Lobe.phaseAOutput, Lobe.linkContribution, Lobe.valueAt, Lobe.thresholdAt,
      Lobe.strengthAt, Lobe.weightAt, Lobe.phaseB, Lobe.phaseCAdd,
      show List.range 1 = [0] from by decide]
    rfl

/-- Claim C10: `apply_input` is total for an input slice of any length
`n`: it adds `inputs[j]` onto the column-0 value at index `j` for every
`j < min n breadth`, and changes nothing else — values past the zipped
prefix (the rest of column 0 when `n < breadth` and all later columns)
and every parameter are untouched. -/
theorem c10_apply_input_total (L : Lobe) (hL : L.Wellformed)
    (inputs : List Amount) :
    (L.apply_input inputs).values.length = L.values.length ∧
    (∀ j, j < min L.breadth inputs.length →
      (L.apply_input inputs).values.getD j 0
        = L.values.getD j 0 + inputs.getD j 0) ∧
    (∀ idx, min L.breadth inputs.length ≤ idx →
      (L.apply_input inputs).values.getD idx 0 = L.values.getD idx 0) ∧
    (L.apply_input inputs).dims = L.dims ∧
    (L.apply_input inputs).thresholds = L.thresholds ∧
    (L.apply_input inputs).weights = L.weights ∧
    (L.apply_input inputs).strengths = L.strengths ∧
    (L.apply_input inputs).falloff = L.falloff := by
  obtain ⟨hv, hw, hs, ht⟩ := hL
  have hbv : L.breadth ≤ L.values.length := by
    rw [hv]
    calc L.breadth = L.breadth * 1 := (Nat.mul_one _).symm
      _ ≤ L.breadth * (L.width + 1) := Nat.mul_le_mul_left _ (by omega)
  refine ⟨?_, ?_, ?_, rfl, rfl, rfl, rfl, rfl⟩
  · show (List.zipWith _ (L.values.take L.breadth) inputs
        ++ L.values.drop (min L.breadth inputs.length)).length = _
    rw [List.length_append, List.length_zipWith, List.length_take,
      List.length_drop]
    omega
  · intro j hj
    have hjb : j < L.breadth := by omega
    have hjn : j < inputs.length := by omega
    have hjv : j < L.values.length := by omega
    have hzlen : j < (List.zipWith (· + ·) (L.values.take L.breadth)
        inputs).length := by
      rw [List.length_zipWith, List.length_take]
      omega
    show (List.zipWith _ (L.values.take L.breadth) inputs
        ++ L.values.drop (min L.breadth inputs.length)).getD j 0 = _
    rw [List.getD_eq_getElem?_getD, List.getElem?_append, if_pos hzlen,
      List.getElem?_zipWith', List.getElem?_take_of_lt hjb,
      List.getElem?_eq_getElem hjv, List.getElem?_eq_getElem hjn,
      List.getD_eq_getElem L.values 0 hjv, List.getD_eq_getElem inputs 0 hjn]
    rfl
  · intro idx hidx
    rcases Nat.lt_or_ge idx L.values.length with hin | hout
    · have hzlen : ¬ idx < (List.zipWith (· + ·) (L.values.take L.breadth)
          inputs).length := by
        rw [List.length_zipWith, List.length_take]
        omega
      show (List.zipWith _ (L.values.take L.breadth) inputs
          ++ L.values.drop (min L.breadth inputs.length)).getD idx 0 = _
      rw [List.getD_eq_getElem?_getD, List.getElem?_append, if_neg hzlen,
        List.length_zipWith, List.length_take, List.getElem?_drop,
        show min L.breadth inputs.length
            + (idx - min (min L.breadth L.values.length) inputs.length)
          = idx from by omega,
        List.getElem?_eq_getElem hin, List.getD_eq_getElem L.values 0 hin]
      rfl
    · have hlen : (L.apply_input inputs).values.length = L.values.length := by
        show (List.zipWith _ (L.values.take L.breadth) inputs
            ++ L.values.drop (min L.breadth inputs.length)).length = _
        rw [List.length_append, List.length_zipWith, List.length_take,
          List.length_drop]
        omega
      rw [List.getD_eq_getElem?_getD, List.getD_eq_getElem?_getD,
        List.getElem?_eq_none (by omega : L.values.length ≤ idx),
        List.getElem?_eq_none (by rw [hlen]; omega)]

/-- Witness for C10: a 3-entry input applied to a breadth-2 lobe (longer
than the column — no out-of-bounds access; the zipped prefix adds). -/
theorem c10_apply_input_total_witness :
    ((Lobe.new 2 1 (0 : Amount)).apply_input [1, 2, 3]).values.getD 1 0
      = (Lobe.new 2 1 (0 : Amount)).values.getD 1 0
        + ([1, 2, 3] : List Amount).getD 1 0 :=
  (c10_apply_input_total (Lobe.new 2 1 0) (by decide) [1, 2, 3]).2.1 1
    (by decide)

/-- The amount Phase C deposits into a neuron that enters the phase at
zero: the Phase A output addition (column 0 receives none) followed by
the decay step of the same tick. -/
def Lobe.phaseCDeposit (L : Lobe) (dur : Amount) (c i : ℕ) : Amount :=
  L.phaseCAddAt dur c i - L.phaseCAddAt dur c i * L.falloff * dur

/-- Claim C7: post-fire reset. After `tick(duration)`, every neuron in
columns `0..width-1` whose pre-tick value was `>=` its threshold holds
exactly the amount Phase C put into it that same step (the propagated
Phase A output, decayed) — no remnant of its pre-tick value. -/
theorem c7_postfire_reset (L : Lobe) (dur : Amount) (hL : L.Wellformed)
    (c i : ℕ) (hc : c < L.width) (hi : i < L.breadth)
    (hfire : L.thresholdAt c i ≤ L.valueAt c i) :
    (L.tick dur).valueAt c i = L.phaseCDeposit dur c i := by
  obtain ⟨hv, hw, hs, ht⟩ := hL
  rw [Lobe.tick_valueAt L dur hv ht c i (Nat.le_of_lt hc) hi,
    Lobe.phaseCDeposit, Lobe.resetValueAt, if_pos ⟨hc, hfire⟩]
  ring

/-- Witness for C7: the scenario lobe with value 5 at threshold 0 in
column 0; after the tick it holds exactly the Phase C deposit (zero for
column 0). -/
theorem c7_postfire_reset_witness :
    (Lobe.tick
        { dims := (1, 1), values := [5, 0], thresholds := [0],
          weights := [0, 1, 0], strengths := [1], falloff := 0 }
        1).valueAt 0 0
      = Lobe.phaseCDeposit
        { dims := (1, 1), values := [5, 0], thresholds := [0],
          weights := [0, 1, 0], strengths := [1], falloff := 0 }
        1 0 0 :=
  c7_postfire_reset _ 1 (by decide) 0 0 (by decide) (by decide) (by decide)

/-- Claim C8: conservation under zero weights. With every weight `0` and
falloff `0`, a tick leaves every value unchanged except that neurons of
the thresholded columns whose pre-tick value is at or above their
threshold are reset to `0`; in particular the output column is
untouched. -/
theorem c8_zero_weight_conservation (L : Lobe) (dur : Amount)
    (hL : L.Wellformed) (hw0 : ∀ x ∈ L.weights, x = 0) (hf : L.falloff = 0)
    (c i : ℕ) (hc : c ≤ L.width) (hi : i < L.breadth) :
    (L.tick dur).valueAt c i =
      if c < L.width ∧ L.thresholdAt c i ≤ L.valueAt c i then 0
      else L.valueAt c i := by
  obtain ⟨hv, hw, hs, ht⟩ := hL
  rw [Lobe.tick_valueAt L dur hv ht c i hc hi]
  have hcontrib : ∀ c' r o, L.linkContribution dur c' r o = 0 := by
    intro c' r o
    rw [Lobe.linkContribution, Lobe.weightAt,
      getD_eq_zero_of_forall_zero _ hw0]
    by_cases h : L.valueAt c' r < L.thresholdAt c' r
    · rw [if_pos h]
    · rw [if_neg h]
      ring
  have hout : ∀ c' j, L.phaseAOutput dur c' j = 0 := by
    intro c' j
    rw [Lobe.phaseAOutput, hcontrib, hcontrib, hcontrib]
    simp
  rw [hf]
  simp only [Lobe.phaseCAddAt, hout, ite_self, add_zero, mul_zero, zero_mul,
    sub_zero]
  rw [Lobe.resetValueAt]

/-- Witness for C8: a zero-weight, zero-falloff lobe; the output-column
value 4 survives the tick unchanged. -/
theorem c8_zero_weight_conservation_witness :
    (Lobe.tick
        { dims := (1, 1), values := [3, 4], thresholds := [2],
          weights := [0, 0, 0], strengths := [7], falloff := 0 }
        5).valueAt 1 0
      = if 1 < Lobe.width
            { dims := (1, 1), values := [3, 4], thresholds := [2],
              weights := [0, 0, 0], strengths := [7], falloff := 0 }
          ∧ Lobe.thresholdAt
              { dims := (1, 1), values := [3, 4], thresholds := [2],
                weights := [0, 0, 0], strengths := [7], falloff := 0 } 1 0
            ≤ Lobe.valueAt
              { dims := (1, 1), values := [3, 4], thresholds := [2],
                weights := [0, 0, 0], strengths := [7], falloff := 0 } 1 0
        then 0
        else Lobe.valueAt
          { dims := (1, 1), values := [3, 4], thresholds := [2],
            weights := [0, 0, 0], strengths := [7], falloff := 0 } 1 0 :=
  c8_zero_weight_conservation _ 5 (by decide) (by decide) rfl 1 0 (by decide)
    (by decide)

theorem getD_set_ne (l : List Amount) (m n : ℕ) (a : Amount) (hmn : m ≠ n) :
    (l.set m a).getD n 0 = l.getD n 0 := by
  rw [List.getD_eq_getElem?_getD, List.getD_eq_getElem?_getD,
    List.getElem?_set_ne hmn]

/-- Claim C6: threshold gating in Phase A. A neuron `(c, i)` strictly
below its threshold contributes `0` through each of its three links,
and the Phase A output of its sink column is invariant under arbitrary
replacement of that neuron's three weights and its strength; a neuron
at or above its threshold contributes
`input * weight * strength * duration` along each link. -/
theorem c6_threshold_gating (L : Lobe) (dur : Amount) (c i : ℕ)
    (hc : c < L.width) (hi : i < L.breadth) :
    (L.valueAt c i < L.thresholdAt c i →
      (∀ offset, L.linkContribution dur c i offset = 0) ∧
      (∀ w0 w1 w2 s j,
        Lobe.phaseAOutput
          { L with
            weights := ((L.weights.set (c * (3 * L.breadth) + 3 * i) w0).set
                (c * (3 * L.breadth) + 3 * i + 1) w1).set
                (c * (3 * L.breadth) + 3 * i + 2) w2,
            strengths := L.strengths.set (c * L.breadth + i) s }
          dur c j = L.phaseAOutput dur c j)) ∧
    (L.thresholdAt c i ≤ L.valueAt c i →
      ∀ offset, L.linkContribution dur c i offset
        = L.valueAt c i * L.weightAt c i offset * L.strengthAt c i * dur) := by
  constructor
  · intro hbelow
    constructor
    · intro offset
      rw [Lobe.linkContribution, if_pos hbelow]
    · intro w0 w1 w2 s j
      set Lm : Lobe :=
        { L with
          weights := ((L.weights.set (c * (3 * L.breadth) + 3 * i) w0).set
              (c * (3 * L.breadth) + 3 * i + 1) w1).set
              (c * (3 * L.breadth) + 3 * i + 2) w2,
          strengths := L.strengths.set (c * L.breadth + i) s } with hLm
      have hbr : Lm.breadth = L.breadth := rfl
      have hvals : Lm.values = L.values := rfl
      have hths : Lm.thresholds = L.thresholds := rfl
      have hkey : ∀ r o, o < 3 →
          Lm.linkContribution dur c r o = L.linkContribution dur c r o := by
        intro r o ho
        by_cases hri : r = i
        · subst hri
          have hvAt : Lm.valueAt c r = L.valueAt c r := rfl
          have htAt : Lm.thresholdAt c r = L.thresholdAt c r := rfl
          rw [Lobe.linkContribution, Lobe.linkContribution, hvAt, htAt,
            if_pos hbelow, if_pos hbelow]
        · have hvAt : Lm.valueAt c r = L.valueAt c r := rfl
          have htAt : Lm.thresholdAt c r = L.thresholdAt c r := rfl
          have hsAt : Lm.strengthAt c r = L.strengthAt c r := by
            rw [Lobe.strengthAt, Lobe.strengthAt, hbr]
            show (L.strengths.set (c * L.breadth + i) s).getD
              (c * L.breadth + r) 0 = _
            exact getD_set_ne _ _ _ _ (by omega)
          have hwAt : Lm.weightAt c r o = L.weightAt c r o := by
            rw [Lobe.weightAt, Lobe.weightAt, hbr]
            show (((L.weights.set (c * (3 * L.breadth) + 3 * i) w0).set
                (c * (3 * L.breadth) + 3 * i + 1) w1).set
                (c * (3 * L.breadth) + 3 * i + 2) w2).getD
              (c * (3 * L.breadth) + 3 * r + o) 0 = _
            rw [getD_set_ne _ _ _ _ (by omega), getD_set_ne _ _ _ _ (by omega),
              getD_set_ne _ _ _ _ (by omega)]
          rw [Lobe.linkContribution, Lobe.linkContribution, hvAt, htAt, hsAt,
            hwAt]
      rw [Lobe.phaseAOutput, Lobe.phaseAOutput, hbr]
      congr 2
      · by_cases hjb : j + 1 < L.breadth
        · rw [if_pos hjb, if_pos hjb, hkey _ 0 (by omega)]
        · rw [if_neg hjb, if_neg hjb]
      · exact hkey _ 1 (by omega)
      · exact hkey _ 2 (by omega)
  · intro habove offset
    rw [Lobe.linkContribution, if_neg (not_lt.mpr habove)]

/-- Witness for C6: a neuron with value 1 below threshold 2 contributes
`0` along its middle link despite nonzero weights and strength. -/
theorem c6_threshold_gating_witness :
    Lobe.linkContribution
      { dims := (1, 1), values := [1, 0], thresholds := [2],
        weights := [3, 4, 5], strengths := [6], falloff := 0 } 1 0 0 1 = 0 :=
  ((c6_threshold_gating
      { dims := (1, 1), values := [1, 0], thresholds := [2],
        weights := [3, 4, 5], strengths := [6], falloff := 0 }
      1 0 0 (by decide) (by decide)).1 (by decide)).1 1

theorem flat_lt {b w c i : ℕ} (hc : c ≤ w) (hi : i < b) :
    c * b + i < b * (w + 1) := by
  calc c * b + i < (c + 1) * b := by rw [Nat.succ_mul]; omega
    _ ≤ (w + 1) * b := Nat.mul_le_mul_right _ (by omega)
    _ = b * (w + 1) := Nat.mul_comm _ _

/-- Claim C5: banded connectivity as a two-run property. If two
wellformed Lobes share dims and all parameters and their values agree
everywhere except possibly at the single neuron `(c, i)` (`c < width`,
`i < breadth`), then after one tick with the same duration their values
can differ only at `(c, i)` itself and at `(c+1, j)` for
`j ∈ {i-1, i, i+1}` clipped to range: at every other coordinate the two
runs agree. -/
theorem c5_banded_connectivity (L1 L2 : Lobe) (dur : Amount)
    (h1 : L1.Wellformed) (h2 : L2.Wellformed)
    (hdims : L2.dims = L1.dims)
    (hth : L2.thresholds = L1.thresholds) (hwe : L2.weights = L1.weights)
    (hst : L2.strengths = L1.strengths) (hfa : L2.falloff = L1.falloff)
    (c i : ℕ) (hc : c < L1.width) (hi : i < L1.breadth)
    (hvals : ∀ idx, idx < L1.values.length → idx ≠ c * L1.breadth + i →
      L2.values.getD idx 0 = L1.values.getD idx 0)
    (c' i' : ℕ) (hc' : c' ≤ L1.width) (hi' : i' < L1.breadth)
    (hne : ¬(c' = c ∧ i' = i))
    (hband : ¬(c' = c + 1 ∧ (i' + 1 = i ∨ i' = i ∨ i' = i + 1))) :
    (L2.tick dur).valueAt c' i' = (L1.tick dur).valueAt c' i' := by
  obtain ⟨hv1, hw1, hs1, ht1⟩ := h1
  obtain ⟨hv2, hw2, hs2, ht2⟩ := h2
  have hbr : L2.breadth = L1.breadth := by
    rw [Lobe.breadth, Lobe.breadth, hdims]
  have hwd : L2.width = L1.width := by
    rw [Lobe.width, Lobe.width, hdims]
  have hvAt : ∀ cs r, cs ≤ L1.width → r < L1.breadth → ¬(cs = c ∧ r = i) →
      L2.valueAt cs r = L1.valueAt cs r := by
    intro cs r hcs hr hne'
    rw [Lobe.valueAt, Lobe.valueAt, hbr]
    apply hvals _ (by rw [hv1]; exact flat_lt hcs hr)
    intro heq
    exact hne' ⟨(flat_index_inj hr hi heq).1, (flat_index_inj hr hi heq).2⟩
  have htAt : ∀ cs r, L2.thresholdAt cs r = L1.thresholdAt cs r := by
    intro cs r
    rw [Lobe.thresholdAt, Lobe.thresholdAt, hth, hbr]
  have hsAt : ∀ cs r, L2.strengthAt cs r = L1.strengthAt cs r := by
    intro cs r
    rw [Lobe.strengthAt, Lobe.strengthAt, hst, hbr]
  have hwAt : ∀ cs r o, L2.weightAt cs r o = L1.weightAt cs r o := by
    intro cs r o
    rw [Lobe.weightAt, Lobe.weightAt, hwe, hbr]
  have hlink : ∀ cs r o, cs ≤ L1.width → r < L1.breadth →
      ¬(cs = c ∧ r = i) →
      L2.linkContribution dur cs r o = L1.linkContribution dur cs r o := by
    intro cs r o hcs hr hne'
    rw [Lobe.linkContribution, Lobe.linkContribution, hvAt cs r hcs hr hne',
      htAt, hsAt, hwAt]
  have hreset : L2.resetValueAt c' i' = L1.resetValueAt c' i' := by
    rw [Lobe.resetValueAt, Lobe.resetValueAt, hwd, htAt,
      hvAt c' i' hc' hi' hne]
  have hadd : L2.phaseCAddAt dur c' i' = L1.phaseCAddAt dur c' i' := by
    rw [Lobe.phaseCAddAt, Lobe.phaseCAddAt]
    by_cases hc0 : 1 ≤ c'
    · rw [if_pos hc0, if_pos hc0]
      have t1 : (if i' + 1 < L1.breadth then
            L2.linkContribution dur (c' - 1) (i' + 1) 0 else 0)
          = (if i' + 1 < L1.breadth then
            L1.linkContribution dur (c' - 1) (i' + 1) 0 else 0) := by
        by_cases h : i' + 1 < L1.breadth
        · rw [if_pos h, if_pos h, hlink _ _ _ (by omega) h (by omega)]
        · rw [if_neg h, if_neg h]
      have t2 : L2.linkContribution dur (c' - 1) i' 1
          = L1.linkContribution dur (c' - 1) i' 1 :=
        hlink _ _ _ (by omega) hi' (by omega)
      have t3 : (if 1 ≤ i' then
            L2.linkContribution dur (c' - 1) (i' - 1) 2 else 0)
          = (if 1 ≤ i' then
            L1.linkContribution dur (c' - 1) (i' - 1) 2 else 0) := by
        by_cases h : 1 ≤ i'
        · rw [if_pos h, if_pos h, hlink _ _ _ (by omega) (by omega) (by omega)]
        · rw [if_neg h, if_neg h]
      rw [Lobe.phaseAOutput, Lobe.phaseAOutput, hbr, t1, t2, t3]
    · rw [if_neg hc0, if_neg hc0]
  rw [Lobe.tick_valueAt L2 dur hv2 ht2 c' i' (by rw [hwd]; exact hc')
      (by rw [hbr]; exact hi'),
    Lobe.tick_valueAt L1 dur hv1 ht1 c' i' hc' hi', hfa, hreset, hadd]

/-- Witness for C5: two breadth-3, width-1 lobes differing only at
neuron `(0, 0)`; after one tick the value at `(0, 1)` (outside the
influence band of `(0, 0)`, which is `{(0,0)} ∪ {(1, 0), (1, 1)}`) is
the same in both runs. -/
theorem c5_banded_connectivity_witness :
    (Lobe.tick
        { dims := (1, 3), values := [2, 0, 0, 0, 0, 0],
          thresholds := [0, 0, 0],
          weights := [1, 1, 1, 1, 1, 1, 1, 1, 1],
          strengths := [1, 1, 1], falloff := 0 } 1).valueAt 0 1
      = (Lobe.tick
          { dims := (1, 3), values := [1, 0, 0, 0, 0, 0],
            thresholds := [0, 0, 0],
            weights := [1, 1, 1, 1, 1, 1, 1, 1, 1],
            strengths := [1, 1, 1], falloff := 0 } 1).valueAt 0 1 :=
  c5_banded_connectivity
    { dims := (1, 3), values := [1, 0, 0, 0, 0, 0], thresholds := [0, 0, 0],
      weights := [1, 1, 1, 1, 1, 1, 1, 1, 1], strengths := [1, 1, 1],
      falloff := 0 }
    { dims := (1, 3), values := [2, 0, 0, 0, 0, 0], thresholds := [0, 0, 0],
      weights := [1, 1, 1, 1, 1, 1, 1, 1, 1], strengths := [1, 1, 1],
      falloff := 0 }
    1 (by decide) (by decide) rfl rfl rfl rfl rfl 0 0 (by decide) (by decide)
    (by decide) 0 1 (by decide) (by decide) (by decide) (by decide)

